import Mathlib

/-!
Shallow embedding of `src/expenses-tracker.py` (Lab 3 personal expenses
tracker) and proofs about its specification claims.

Modelling conventions:
* The filesystem is an association list `FS := List (String × String)`
  mapping filenames to their whole contents.  `os.listdir()` is the list of
  keys, opening a file is association lookup, writing replaces or appends an
  entry, and appending to a file concatenates to its contents (creating the
  file when absent, as Python `open(f, "a")` does).
* Python `float` values are modelled as exact rationals `Rat`; the literal
  `1e-9` is the rational `1/10^9` and `f"{x:.2f}"` formatting rounds
  `100 * x` to the nearest integer (ties to even, as IEEE formatting does)
  and renders it with two fraction digits.  Non-finite literals
  (`inf`, `nan`) are outside this rational model.
* `float(s)` / `int(s)` coercions are modelled by executable parsers
  `pyFloat?` / `pyInt?` over the string contents (optional surrounding
  whitespace, optional sign, digits with optional fraction and exponent).
* Interactive prompt loops re-prompt until a valid value arrives; the
  functions below take the post-validation values as arguments and return
  an explicit outcome constructor where the program prints a message.
-/

/-- Characters Python `str.strip()` removes (ASCII whitespace). -/
def isPySpace (c : Char) : Bool :=
  c = ' ' || c = '\t' || c = '\n' || c = '\r' || c = '\x0b' || c = '\x0c'

/-- Strip leading and trailing Python whitespace from a character list. -/
def stripList (cs : List Char) : List Char :=
  ((cs.dropWhile isPySpace).reverse.dropWhile isPySpace).reverse

/-- Model of Python `s.split(sep)` for a one-character separator:
splits into the (possibly empty) groups between occurrences of `sep`. -/
def splitCh (sep : Char) : List Char → List (List Char)
  | [] => [[]]
  | c :: cs =>
    match splitCh sep cs with
    | [] => [[]]
    | g :: gs => if c = sep then [] :: g :: gs else (c :: g) :: gs

/-- Model of Python `s.split(sep, 1)`: the part before the first `sep`,
and `some` remainder when `sep` occurs. -/
def breakFirst (sep : Char) : List Char → List Char × Option (List Char)
  | [] => ([], none)
  | c :: cs =>
    if c = sep then ([], some cs)
    else
      let p := breakFirst sep cs
      (c :: p.1, p.2)

/-- Longest prefix of decimal digits, together with the rest. -/
def takeDigits : List Char → List Char × List Char
  | [] => ([], [])
  | c :: cs =>
    if c.isDigit then
      let p := takeDigits cs
      (c :: p.1, p.2)
    else ([], c :: cs)

/-- Numeric value of a most-significant-first digit list. -/
def digitsVal (ds : List Char) : Nat :=
  ds.foldl (fun a c => 10 * a + (c.toNat - 48)) 0

/-- Consume an optional leading sign; `true` means negative. -/
def readSign : List Char → Bool × List Char
  | '-' :: cs => (true, cs)
  | '+' :: cs => (false, cs)
  | cs => (false, cs)

/-- Model of Python `int(s)` on an already-stripped character list:
an optional sign followed by one or more digits. -/
def pyIntCore (cs : List Char) : Option Int :=
  let s := readSign cs
  if s.2 ≠ [] ∧ s.2.all Char.isDigit then
    some (if s.1 then -(digitsVal s.2 : Int) else (digitsVal s.2 : Int))
  else none

/-- Model of Python `int(s)`: strips surrounding whitespace first. -/
def pyInt? (s : String) : Option Int :=
  pyIntCore (stripList s.data)

/-- Exponent suffix of a float literal: after `e`/`E`, an optional sign and
one or more digits; scales the mantissa by the corresponding power of ten. -/
def pyExpPart (m : Rat) (cs : List Char) : Option Rat :=
  let s := readSign cs
  if s.2 ≠ [] ∧ s.2.all Char.isDigit then
    some (if s.1 then m / 10 ^ digitsVal s.2 else m * 10 ^ digitsVal s.2)
  else none

/-- Mantissa value from integer-part and fraction-part digit lists. -/
def mantissaVal (ip fp : List Char) : Rat :=
  (digitsVal ip : Rat) + (digitsVal fp : Rat) / 10 ^ fp.length

/-- Model of Python `float(s)` on an already-stripped character list:
optional sign, then digits with an optional `.` and fraction digits
(at least one digit overall), then an optional exponent. -/
def pyFloatCore (cs : List Char) : Option Rat :=
  let s := readSign cs
  let ip := takeDigits s.2
  let signed : Rat → Rat := fun v => if s.1 then -v else v
  match ip.2 with
  | [] => if ip.1 = [] then none else some (signed (mantissaVal ip.1 []))
  | '.' :: r2 =>
    let fp := takeDigits r2
    if ip.1 = [] ∧ fp.1 = [] then none
    else
      match fp.2 with
      | [] => some (signed (mantissaVal ip.1 fp.1))
      | c :: r4 =>
        if c = 'e' ∨ c = 'E' then
          (pyExpPart (mantissaVal ip.1 fp.1) r4).map signed
        else none
  | c :: r2 =>
    if (c = 'e' ∨ c = 'E') ∧ ip.1 ≠ [] then
      (pyExpPart (mantissaVal ip.1 []) r2).map signed
    else none

/-- Model of Python `float(s)`: strips surrounding whitespace first. -/
def pyFloat? (s : String) : Option Rat :=
  pyFloatCore (stripList s.data)

/-- The decimal digit character for a value below ten. -/
def digitChar : Nat → Char
  | 0 => '0'
  | 1 => '1'
  | 2 => '2'
  | 3 => '3'
  | 4 => '4'
  | 5 => '5'
  | 6 => '6'
  | 7 => '7'
  | 8 => '8'
  | _ => '9'

/-- Decimal digits of `n`, least significant first. -/
def natDigsRev (n : Nat) : List Char :=
  if h : n < 10 then [digitChar n]
  else digitChar (n % 10) :: natDigsRev (n / 10)
termination_by n
decreasing_by
  exact Nat.div_lt_self (by omega) (by omega)

/-- Decimal rendering of a natural number, most significant digit first. -/
def natDigs (n : Nat) : List Char :=
  (natDigsRev n).reverse

/-- Decimal rendering of an integer (Python `str(i)` / `f"{i}"`). -/
def intDigs (n : Int) : List Char :=
  (if n < 0 then ['-'] else []) ++ natDigs n.natAbs

/-- Round a rational to the nearest integer, ties to even. -/
def roundHalfEven (x : Rat) : Int :=
  let f := ⌊x⌋
  let r := x - (f : Rat)
  if r < 1 / 2 then f
  else if 1 / 2 < r then f + 1
  else if f % 2 = 0 then f else f + 1

/-- The integer number of hundredths that `f"{v:.2f}"` renders. -/
def rnd2 (v : Rat) : Int :=
  roundHalfEven (100 * v)

/-- Exactly two digits for a value below one hundred. -/
def twoDig (m : Nat) : List Char :=
  [digitChar (m / 10), digitChar (m % 10)]

/-- Rendering of an integer number of hundredths as a fixed two-decimal
literal: sign, integer part, `.`, two fraction digits. -/
def fixed2 (n : Int) : List Char :=
  (if n < 0 then ['-'] else []) ++ natDigs (n.natAbs / 100)
    ++ '.' :: twoDig (n.natAbs % 100)

/-- Model of Python `f"{v:.2f}"`. -/
def fmt2 (v : Rat) : List Char :=
  fixed2 (rnd2 v)

/-! ## Filesystem model -/

/-- The working directory: filenames with their whole contents. -/
abbrev FS : Type := List (String × String)

/-- Model of opening a file for reading: `some` contents when present. -/
def readFile (fs : FS) (name : String) : Option String :=
  (List.find? (fun p => p.1 = name) fs).map (fun p => p.2)

/-- Model of `open(name, "w")` + write: replace the contents when the file
exists, otherwise create it. -/
def writeFile (fs : FS) (name content : String) : FS :=
  if (fs : List (String × String)).any (fun p => p.1 = name) then
    fs.map (fun p => if p.1 = name then (name, content) else p)
  else fs ++ [(name, content)]

/-- Model of `open(name, "a")` + write: append to the contents, creating
the file when absent. -/
def appendFile (fs : FS) (name content : String) : FS :=
  writeFile fs name (((readFile fs name).getD "") ++ content)

/-- `os.path.exists` for the modelled directory. -/
def fsExists (fs : FS) (name : String) : Bool :=
  (fs : List (String × String)).any (fun p => p.1 = name)

/-- Insertion of a string into an already-sorted list (model of `sorted`). -/
def insertSorted (s : String) : List String → List String
  | [] => [s]
  | t :: ts => if s ≤ t then s :: t :: ts else t :: insertSorted s ts

/-- Model of Python `sorted` on a list of strings. -/
def sortStrings (l : List String) : List String :=
  l.foldr insertSorted []

/-- `p.isPrefixOf s` on string data: model of `str.startswith`. -/
def strStartsWith (s p : String) : Bool :=
  p.data.isPrefixOf s.data

/-- Suffix test on string data: model of `str.endswith`. -/
def strEndsWith (s p : String) : Bool :=
  p.data.reverse.isPrefixOf s.data.reverse

/-- The lines a Python `for line in f` iteration parses, modelled after
splitting the contents on newlines (each parsed line is stripped anyway,
so keeping or dropping the trailing `\n` of a line is immaterial). -/
def fileLines (content : String) : List String :=
  (splitCh '\n' content.data).map fun cs => String.mk cs

/-! ## Source constants and helpers (`src/expenses-tracker.py`) -/

def BALANCE_FILE : String := "balance.txt"

def EXPENSE_PREFIX : String := "expenses_"

/-- `list_expense_files()`: sorted directory entries starting with
`expenses_` and ending with `.txt`. -/
def list_expense_files (fs : FS) : List String :=
  sortStrings ((fs.map (fun p => p.1)).filter
    (fun f => strStartsWith f EXPENSE_PREFIX && strEndsWith f ".txt"))

/-- A parsed expense record (`parse_expense_line`'s dictionary). -/
structure ExpRec where
  id : Int
  timestamp : String
  item : String
  amount : Rat
deriving Repr, DecidableEq

/-- `parse_expense_line(line)`: strip the line, split on `|`, require
exactly four fields, coerce field 0 to `int` and field 3 to `float`;
any failure yields `none`. -/
def parse_expense_line (line : String) : Option ExpRec :=
  match splitCh '|' (stripList line.data) with
  | [a, b, c, d] =>
    match pyIntCore (stripList a), pyFloatCore (stripList d) with
    | some i, some amt =>
      some { id := i, timestamp := String.mk b, item := String.mk c, amount := amt }
    | _, _ => none
  | _ => none

/-- Sum of the amounts of the parseable lines of one file's contents. -/
def fileTotal (content : String) : Rat :=
  ((fileLines content).filterMap
    (fun l => (parse_expense_line l).map (fun r => r.amount))).sum

/-- `total_expenses()`: sum over every expense file of every parseable
line's amount. -/
def total_expenses (fs : FS) : Rat :=
  ((list_expense_files fs).map
    (fun fname => fileTotal (((readFile fs fname).getD "")))).sum

/-- Outcome of `read_balance()`: the returned value, the resulting
filesystem, and whether the invalid-number diagnostic was printed. -/
structure RBOut where
  val : Rat
  fs : FS
  diag : Bool
deriving Repr

/-- `read_balance()`: create `balance.txt` with `0.0` when absent; parse
its stripped contents as a float; on parse failure print a diagnostic and
reset the file to `0.0`. -/
def read_balance (fs : FS) : RBOut :=
  match readFile fs BALANCE_FILE with
  | none => { val := 0, fs := writeFile fs BALANCE_FILE "0.0\n", diag := false }
  | some contents =>
    match pyFloat? contents with
    | some v => { val := v, fs := fs, diag := false }
    | none => { val := 0, fs := writeFile fs BALANCE_FILE "0.0\n", diag := true }

/-- `write_balance(new_balance)`: overwrite `balance.txt` with the value
formatted to two decimals plus a newline. -/
def write_balance (new_balance : Rat) (fs : FS) : FS :=
  writeFile fs BALANCE_FILE (String.mk (fmt2 new_balance ++ ['\n']))

/-- The `expenses_<date>.txt` day-file name `add_new_expense` writes. -/
def dayFileName (date_str : String) : String :=
  EXPENSE_PREFIX ++ date_str ++ ".txt"

/-- The non-blank lines of a day file, as `add_new_expense` collects them
(`[l for l in f if l.strip()]`). -/
def nonBlankLines (content : String) : List String :=
  (fileLines content).filter (fun l => stripList l.data ≠ [])

/-- The next id `add_new_expense` generates: 1 when the day file is absent
or has no non-blank line or its last non-blank line does not parse,
otherwise 1 plus that last line's id. -/
def nextId (fs : FS) (fname : String) : Int :=
  if fsExists fs fname then
    match (nonBlankLines ((readFile fs fname).getD "")).getLast? with
    | none => 1
    | some last =>
      match parse_expense_line last with
      | some r => r.id + 1
      | none => 1
  else 1

/-- The line `add_new_expense` appends:
`f"{next_id}|{timestamp}|{item}|{amt:.2f}\n"`. -/
def expenseLine (next_id : Int) (timestamp item : String) (amt : Rat) : String :=
  String.mk (intDigs next_id ++ '|' :: timestamp.data ++ '|' :: item.data
    ++ '|' :: fmt2 amt ++ ['\n'])

/-- How a run of `add_new_expense` ends after the confirmation prompt. -/
inductive AddResult where
  | notSaved
  | insufficient
  | saved (fname line : String)
deriving Repr, DecidableEq

/-- `add_new_expense()` after its input-collection loops: `date_str` is the
validated ISO date, `item` the stripped non-empty item, `amt` the validated
positive amount, `confirm` the answer to the save prompt, and `ts` the
current timestamp.  Reads the balance (which may self-heal `balance.txt`),
computes the available balance, and on a confirmed affordable expense
appends one formatted line to the day file. -/
def add_new_expense (fs : FS) (date_str item : String) (amt : Rat)
    (confirm : Bool) (ts : String) : AddResult × FS :=
  let rb := read_balance fs
  let available := rb.val - total_expenses rb.fs
  if ¬ confirm then (AddResult.notSaved, rb.fs)
  else if amt > available + 1 / 1000000000 then (AddResult.insufficient, rb.fs)
  else
    let fname := dayFileName date_str
    let line := expenseLine (nextId rb.fs fname) ts item amt
    (AddResult.saved fname line, appendFile rb.fs fname line)

/-- One record paired with the file it came from, for search results. -/
def recordsOf (fs : FS) (fname : String) : List (String × ExpRec) :=
  ((fileLines ((readFile fs fname).getD "")).filterMap parse_expense_line).map
    (fun r => (fname, r))

/-- Every parseable record across all day files, in scan order. -/
def allRecords (fs : FS) : List (String × ExpRec) :=
  (list_expense_files fs).flatMap (fun fname => recordsOf fs fname)

/-- Outcome of one attempt of `search_expenses_by_amount`'s input loop:
empty input returns, a malformed range or number re-prompts, otherwise the
matching records are collected. -/
inductive SearchOutcome where
  | emptyInput
  | invalidRange
  | invalidNumber
  | results (l : List (String × ExpRec))
deriving Repr, DecidableEq

/-- One iteration of `search_expenses_by_amount()` on the stripped query:
a query containing `-` is split on the first `-` into two floats and
matched as an inclusive range; otherwise the query is one float matched
exactly within `1e-9`. -/
def search_expenses_by_amount (q : String) (fs : FS) : SearchOutcome :=
  let qd := stripList q.data
  if qd = [] then SearchOutcome.emptyInput
  else if qd.contains '-' then
    match breakFirst '-' qd with
    | (p0, some p1) =>
      match pyFloatCore (stripList p0), pyFloatCore (stripList p1) with
      | some lo, some hi =>
        SearchOutcome.results ((list_expense_files fs).flatMap (fun fname =>
          ((fileLines ((readFile fs fname).getD "")).filterMap
            (fun l => (parse_expense_line l).bind (fun r =>
              if lo ≤ r.amount ∧ r.amount ≤ hi then some (fname, r) else none)))))
      | _, _ => SearchOutcome.invalidRange
    | (_, none) => SearchOutcome.invalidRange
  else
    match pyFloatCore qd with
    | some target =>
      SearchOutcome.results ((list_expense_files fs).flatMap (fun fname =>
        ((fileLines ((readFile fs fname).getD "")).filterMap
          (fun l => (parse_expense_line l).bind (fun r =>
            if |r.amount - target| < 1 / 1000000000 then some (fname, r)
            else none)))))
    | none => SearchOutcome.invalidNumber

/-- The body of `total_expenses` run over an explicitly given file listing,
as the source's `for fname in ...: with open(fname)` loop would behave if
the listing did not reflect the directory (the loop has no existence check
and no exception handler, so opening a missing file raises). -/
def total_expenses_onList (names : List String) (fs : FS) : Except String Rat :=
  match names with
  | [] => Except.ok 0
  | fname :: rest =>
    match readFile fs fname with
    | none => Except.error fname
    | some content =>
      match total_expenses_onList rest fs with
      | Except.ok t => Except.ok (fileTotal content + t)
      | Except.error e => Except.error e

/-! ## Character and digit lemmas -/

theorem digitChar_isDigit (d : Nat) (h : d < 10) : (digitChar d).isDigit = true := by
  interval_cases d <;> decide

theorem digitChar_val (d : Nat) (h : d < 10) : (digitChar d).toNat - 48 = d := by
  interval_cases d <;> decide

theorem isDigit_not_space (c : Char) (h : c.isDigit = true) : isPySpace c = false := by
  have h48 : 48 ≤ c.toNat := by
    simp only [Char.isDigit, Bool.and_eq_true, decide_eq_true_eq] at h
    exact h.1
  by_contra hs
  simp only [Bool.not_eq_false, isPySpace, Bool.or_eq_true, decide_eq_true_eq] at hs
  rcases hs with ((((h1 | h1) | h1) | h1) | h1) | h1 <;> subst h1 <;> simp at h48

theorem digit_ne (c d : Char) (h : c.isDigit = true) (hd : d.isDigit = false) : c ≠ d := by
  intro e
  rw [e, hd] at h
  exact Bool.false_ne_true h

theorem natDigsRev_ne_nil (n : Nat) : natDigsRev n ≠ [] := by
  unfold natDigsRev
  split <;> simp

theorem natDigsRev_all_digit (n : Nat) : ∀ c ∈ natDigsRev n, c.isDigit = true := by
  induction n using natDigsRev.induct with
  | case1 n h =>
    intro c hc
    rw [natDigsRev, dif_pos h] at hc
    simp only [List.mem_singleton] at hc
    subst hc
    exact digitChar_isDigit n h
  | case2 n h ih =>
    intro c hc
    rw [natDigsRev, dif_neg h] at hc
    rcases List.mem_cons.mp hc with h1 | h1
    · subst h1
      exact digitChar_isDigit _ (Nat.mod_lt _ (by omega))
    · exact ih c h1

theorem natDigs_ne_nil (n : Nat) : natDigs n ≠ [] := by
  unfold natDigs
  simpa using natDigsRev_ne_nil n

theorem natDigs_all_digit (n : Nat) : ∀ c ∈ natDigs n, c.isDigit = true := by
  intro c hc
  exact natDigsRev_all_digit n c (List.mem_reverse.mp hc)

theorem digitsVal_append_one (ds : List Char) (c : Char) :
    digitsVal (ds ++ [c]) = 10 * digitsVal ds + (c.toNat - 48) := by
  simp [digitsVal, List.foldl_append]

theorem digitsVal_natDigs (n : Nat) : digitsVal (natDigs n) = n := by
  unfold natDigs
  induction n using natDigsRev.induct with
  | case1 n h =>
    rw [natDigsRev, dif_pos h]
    simp [digitsVal, digitChar_val n h]
  | case2 n h ih =>
    rw [natDigsRev, dif_neg h]
    simp only [List.reverse_cons]
    rw [digitsVal_append_one, ih, digitChar_val _ (Nat.mod_lt _ (by omega))]
    omega

theorem digitsVal_twoDig (m : Nat) (h : m < 100) : digitsVal (twoDig m) = m := by
  simp only [twoDig, digitsVal, List.foldl]
  rw [digitChar_val (m / 10) (by omega), digitChar_val (m % 10) (by omega)]
  omega

theorem twoDig_all_digit (m : Nat) (h : m < 100) : ∀ c ∈ twoDig m, c.isDigit = true := by
  intro c hc
  simp only [twoDig, List.mem_cons, List.mem_singleton, List.not_mem_nil, or_false] at hc
  rcases hc with h1 | h1 <;> subst h1
  · exact digitChar_isDigit _ (by omega)
  · exact digitChar_isDigit _ (by omega)

/-! ## Parsing-side lemmas -/

theorem readSign_cons (c : Char) (cs : List Char) (h1 : c ≠ '-') (h2 : c ≠ '+') :
    readSign (c :: cs) = (false, c :: cs) := by
  unfold readSign
  split
  · simp_all
  · simp_all
  · rfl

theorem readSign_nil : readSign [] = (false, []) := rfl

theorem takeDigits_append (ds rest : List Char) (hd : ∀ c ∈ ds, c.isDigit = true)
    (hr : ∀ c ∈ rest.head?, c.isDigit = false) :
    takeDigits (ds ++ rest) = (ds, rest) := by
  induction ds with
  | nil =>
    cases rest with
    | nil => rfl
    | cons c cs =>
      have : c.isDigit = false := hr c (by simp)
      simp [takeDigits, this]
  | cons d ds ih =>
    have hdd : d.isDigit = true := hd d (by simp)
    have ihr := ih (fun c hc => hd c (by simp [hc]))
    simp only [List.cons_append, takeDigits, hdd, if_true]
    simp [List.append_eq, ihr]

theorem takeDigits_all (ds : List Char) (hd : ∀ c ∈ ds, c.isDigit = true) :
    takeDigits ds = (ds, []) := by
  have := takeDigits_append ds [] hd (by simp)
  simpa using this

theorem dropWhile_cons_of_false (p : Char → Bool) (c : Char) (cs : List Char)
    (h : p c = false) : (c :: cs).dropWhile p = c :: cs := by
  simp [List.dropWhile_cons, h]

theorem stripList_solid (cs : List Char)
    (h1 : ∀ c ∈ cs.head?, isPySpace c = false)
    (h2 : ∀ c ∈ cs.getLast?, isPySpace c = false) :
    stripList cs = cs := by
  unfold stripList
  cases cs with
  | nil => rfl
  | cons c rest =>
    rw [dropWhile_cons_of_false _ _ _ (h1 c (by simp))]
    cases hl : (c :: rest).reverse with
    | nil => simp at hl
    | cons x xs =>
      have hx : (c :: rest).getLast? = some x := by
        rw [List.getLast?_eq_head?_reverse, hl]
        rfl
      rw [dropWhile_cons_of_false _ _ _ (h2 x (by simp [hx])), ← hl]
      simp

theorem stripList_append_newline (cs : List Char) (hne : cs ≠ [])
    (h1 : ∀ c ∈ cs.head?, isPySpace c = false)
    (h2 : ∀ c ∈ cs.getLast?, isPySpace c = false) :
    stripList (cs ++ ['\n']) = cs := by
  unfold stripList
  cases cs with
  | nil => simp at hne
  | cons c rest =>
    rw [List.cons_append, dropWhile_cons_of_false _ _ _ (h1 c (by simp))]
    have hrev : (c :: (rest ++ ['\n'])).reverse = '\n' :: (c :: rest).reverse := by
      simp
    rw [hrev, List.dropWhile_cons]
    simp only [show isPySpace '\n' = true from rfl, if_true]
    cases hl : (c :: rest).reverse with
    | nil => simp at hl
    | cons x xs =>
      have hx : (c :: rest).getLast? = some x := by
        rw [List.getLast?_eq_head?_reverse, hl]
        rfl
      rw [dropWhile_cons_of_false _ _ _ (h2 x (by simp [hx])), ← hl]
      simp

theorem splitCh_ne_nil (sep : Char) (cs : List Char) : splitCh sep cs ≠ [] := by
  induction cs with
  | nil => simp [splitCh]
  | cons c cs ih =>
    unfold splitCh
    split
    · simp
    · split <;> simp_all

theorem splitCh_of_not_mem (sep : Char) (cs : List Char) (h : sep ∉ cs) :
    splitCh sep cs = [cs] := by
  induction cs with
  | nil => rfl
  | cons c cs ih =>
    have hcs : sep ∉ cs := fun hx => h (List.mem_cons_of_mem _ hx)
    have hc : c ≠ sep := fun hx => h (by simp [hx])
    unfold splitCh
    rw [ih hcs]
    simp [hc]

theorem splitCh_cons (sep c : Char) (cs : List Char) :
    splitCh sep (c :: cs) =
      match splitCh sep cs with
      | [] => [[]]
      | g :: gs => if c = sep then [] :: g :: gs else (c :: g) :: gs := rfl

theorem splitCh_cons_sep (sep : Char) (cs : List Char) :
    splitCh sep (sep :: cs) = [] :: splitCh sep cs := by
  rw [splitCh_cons]
  cases hb : splitCh sep cs with
  | nil => exact absurd hb (splitCh_ne_nil sep cs)
  | cons g gs => simp

theorem splitCh_cons_ne (sep c : Char) (cs : List Char) (h : c ≠ sep)
    (g : List Char) (gs : List (List Char)) (hs : splitCh sep cs = g :: gs) :
    splitCh sep (c :: cs) = (c :: g) :: gs := by
  rw [splitCh_cons, hs]
  simp [h]

theorem splitCh_append (sep : Char) (a b : List Char) (h : sep ∉ a) :
    splitCh sep (a ++ sep :: b) = a :: splitCh sep b := by
  induction a with
  | nil =>
    simp only [List.nil_append]
    exact splitCh_cons_sep sep b
  | cons c cs ih =>
    have hcs : sep ∉ cs := fun hx => h (List.mem_cons_of_mem _ hx)
    have hc : c ≠ sep := fun hx => h (by simp [hx])
    rw [List.cons_append]
    cases hr : splitCh sep b with
    | nil => exact absurd hr (splitCh_ne_nil sep b)
    | cons g gs =>
      have := ih hcs
      rw [splitCh_cons_ne sep c _ hc cs (splitCh sep b) this, hr]

/-! ## Rendering / parsing round trips -/

theorem natDigs_head_digit (n : Nat) : ∀ c ∈ (natDigs n).head?, c.isDigit = true := by
  intro c hc
  exact natDigs_all_digit n c (List.mem_of_mem_head? hc)

theorem readSign_of_digit_head (cs : List Char) (h : ∀ c ∈ cs.head?, c.isDigit = true)
    (hne : cs ≠ []) : readSign cs = (false, cs) := by
  cases cs with
  | nil => exact absurd rfl hne
  | cons d ds =>
    have hdd : d.isDigit = true := h d (by simp)
    exact readSign_cons d ds (digit_ne d '-' hdd (by decide)) (digit_ne d '+' hdd (by decide))

theorem pyIntCore_natDigs (n : Nat) : pyIntCore (natDigs n) = some (n : Int) := by
  have hsign : readSign (natDigs n) = (false, natDigs n) :=
    readSign_of_digit_head _ (natDigs_head_digit n) (natDigs_ne_nil n)
  have hall : (natDigs n).all Char.isDigit = true :=
    List.all_eq_true.mpr (natDigs_all_digit n)
  simp only [pyIntCore, hsign]
  rw [if_pos ⟨natDigs_ne_nil n, hall⟩]
  simp [digitsVal_natDigs]

theorem pyIntCore_intDigs (n : Int) : pyIntCore (intDigs n) = some n := by
  by_cases hn : n < 0
  · have hd : intDigs n = '-' :: natDigs n.natAbs := by
      simp [intDigs, hn]
    have hall : (natDigs n.natAbs).all Char.isDigit = true :=
      List.all_eq_true.mpr (natDigs_all_digit _)
    rw [hd]
    simp only [pyIntCore, readSign]
    rw [if_pos ⟨natDigs_ne_nil _, hall⟩]
    simp only [digitsVal_natDigs, if_true]
    congr 1
    omega
  · have hd : intDigs n = natDigs n.natAbs := by
      simp [intDigs, hn]
    rw [hd, pyIntCore_natDigs]
    congr 1
    omega

theorem twoDig_length (m : Nat) : (twoDig m).length = 2 := rfl

theorem mantissaVal_natDigs_twoDig (ipn fr : Nat) (hfr : fr < 100) :
    mantissaVal (natDigs ipn) (twoDig fr) = (ipn : Rat) + (fr : Rat) / 100 := by
  simp [mantissaVal, digitsVal_natDigs, digitsVal_twoDig fr hfr, twoDig_length]
  norm_num

theorem pyFloatCore_sign_natDot (neg : Bool) (ipn fr : Nat) (hfr : fr < 100) :
    pyFloatCore ((if neg then ['-'] else []) ++ natDigs ipn ++ '.' :: twoDig fr)
      = some ((if neg then (-1 : Rat) else 1) * ((ipn : Rat) + (fr : Rat) / 100)) := by
  have htake : takeDigits (natDigs ipn ++ '.' :: twoDig fr)
      = (natDigs ipn, '.' :: twoDig fr) := by
    refine takeDigits_append _ _ (natDigs_all_digit ipn) ?_
    intro c hc
    simp only [List.head?_cons, Option.mem_def, Option.some.injEq] at hc
    subst hc
    decide
  have htake2 : takeDigits (twoDig fr) = (twoDig fr, []) :=
    takeDigits_all _ (twoDig_all_digit fr hfr)
  have hm := mantissaVal_natDigs_twoDig ipn fr hfr
  cases neg with
  | false =>
    have hsign : readSign (natDigs ipn ++ '.' :: twoDig fr)
        = (false, natDigs ipn ++ '.' :: twoDig fr) := by
      refine readSign_of_digit_head _ ?_ ?_
      · intro c hc
        have hh : (natDigs ipn ++ '.' :: twoDig fr).head? = (natDigs ipn).head? := by
          cases hdd : natDigs ipn with
          | nil => exact absurd hdd (natDigs_ne_nil ipn)
          | cons d ds => simp [hdd]
        rw [hh] at hc
        exact natDigs_head_digit ipn c hc
      · simp [natDigs_ne_nil ipn]
    simp only [if_neg (Bool.false_ne_true), List.nil_append]
    simp only [pyFloatCore, hsign, htake, htake2]
    rw [if_neg (by simp [natDigs_ne_nil ipn])]
    simp [hm]
  | true =>
    have hshape : (if (true : Bool) then ['-'] else ([] : List Char))
        ++ natDigs ipn ++ '.' :: twoDig fr
        = '-' :: (natDigs ipn ++ '.' :: twoDig fr) := by simp
    rw [hshape]
    have hsign : readSign ('-' :: (natDigs ipn ++ '.' :: twoDig fr))
        = (true, natDigs ipn ++ '.' :: twoDig fr) := rfl
    simp only [pyFloatCore, hsign, htake, htake2]
    rw [if_neg (by simp [natDigs_ne_nil ipn])]
    simp [hm]

theorem hundredths_split (a : Nat) :
    ((a / 100 : Nat) : Rat) + ((a % 100 : Nat) : Rat) / 100 = (a : Rat) / 100 := by
  have h : (a : Rat) = 100 * ((a / 100 : Nat) : Rat) + ((a % 100 : Nat) : Rat) := by
    exact_mod_cast (Nat.div_add_mod a 100).symm
  rw [h]
  ring

theorem pyFloatCore_fixed2 (n : Int) : pyFloatCore (fixed2 n) = some ((n : Rat) / 100) := by
  have hbase := pyFloatCore_sign_natDot (decide (n < 0)) (n.natAbs / 100) (n.natAbs % 100)
    (Nat.mod_lt _ (by omega))
  have hshape : fixed2 n
      = (if decide (n < 0) then ['-'] else []) ++ natDigs (n.natAbs / 100)
        ++ '.' :: twoDig (n.natAbs % 100) := by
    by_cases hn : n < 0 <;> simp [fixed2, hn]
  rw [hshape, hbase]
  congr 1
  rw [hundredths_split]
  by_cases hn : n < 0
  · have ha : ((n.natAbs : Nat) : Rat) = -(n : Rat) := by
      have h2 : (n.natAbs : Int) = -n := by omega
      calc ((n.natAbs : Nat) : Rat) = ((n.natAbs : Int) : Rat) := (Int.cast_natCast _).symm
        _ = ((-n : Int) : Rat) := by rw [h2]
        _ = -(n : Rat) := by push_cast; ring
    simp [hn, ha]
    ring
  · have ha : ((n.natAbs : Nat) : Rat) = (n : Rat) := by
      have h2 : (n.natAbs : Int) = n := by omega
      calc ((n.natAbs : Nat) : Rat) = ((n.natAbs : Int) : Rat) := (Int.cast_natCast _).symm
        _ = ((n : Int) : Rat) := by rw [h2]
        _ = (n : Rat) := rfl
    simp [hn, ha]

/-! ## Character classes of rendered literals -/

theorem fixed2_mem (n : Int) :
    ∀ c ∈ fixed2 n, c = '-' ∨ c = '.' ∨ c.isDigit = true := by
  intro c hc
  simp only [fixed2, List.mem_append, List.mem_cons] at hc
  rcases hc with (hc | hc) | hc | hc
  · left
    by_cases hn : n < 0 <;> simp [hn] at hc
    exact hc
  · right; right
    exact natDigs_all_digit _ c hc
  · right; left
    exact hc
  · right; right
    exact twoDig_all_digit _ (Nat.mod_lt _ (by omega)) c hc

theorem intDigs_mem (n : Int) :
    ∀ c ∈ intDigs n, c = '-' ∨ c.isDigit = true := by
  intro c hc
  simp only [intDigs, List.mem_append] at hc
  rcases hc with hc | hc
  · left
    by_cases hn : n < 0 <;> simp [hn] at hc
    exact hc
  · right
    exact natDigs_all_digit _ c hc

theorem fixed2_not_space (n : Int) : ∀ c ∈ fixed2 n, isPySpace c = false := by
  intro c hc
  rcases fixed2_mem n c hc with h | h | h
  · subst h; decide
  · subst h; decide
  · exact isDigit_not_space c h

theorem intDigs_not_space (n : Int) : ∀ c ∈ intDigs n, isPySpace c = false := by
  intro c hc
  rcases intDigs_mem n c hc with h | h
  · subst h; decide
  · exact isDigit_not_space c h

theorem pipe_not_mem_fixed2 (n : Int) : '|' ∉ fixed2 n := by
  intro hc
  rcases fixed2_mem n '|' hc with h | h | h <;> simp_all

theorem newline_not_mem_fixed2 (n : Int) : '\n' ∉ fixed2 n := by
  intro hc
  rcases fixed2_mem n '\n' hc with h | h | h <;> simp_all

theorem pipe_not_mem_intDigs (n : Int) : '|' ∉ intDigs n := by
  intro hc
  rcases intDigs_mem n '|' hc with h | h <;> simp_all

theorem newline_not_mem_intDigs (n : Int) : '\n' ∉ intDigs n := by
  intro hc
  rcases intDigs_mem n '\n' hc with h | h <;> simp_all

theorem fixed2_ne_nil (n : Int) : fixed2 n ≠ [] := by
  simp only [fixed2]
  intro h
  rcases List.append_eq_nil.mp h with ⟨h1, h2⟩
  rcases List.append_eq_nil.mp h1 with ⟨_, h3⟩
  exact natDigs_ne_nil _ h3

theorem intDigs_ne_nil (n : Int) : intDigs n ≠ [] := by
  simp only [intDigs]
  intro h
  rcases List.append_eq_nil.mp h with ⟨_, h2⟩
  exact natDigs_ne_nil _ h2

theorem stripList_fixed2 (n : Int) : stripList (fixed2 n) = fixed2 n := by
  refine stripList_solid _ ?_ ?_
  · intro c hc
    exact fixed2_not_space n c (List.mem_of_mem_head? hc)
  · intro c hc
    exact fixed2_not_space n c (List.mem_of_mem_getLast? hc)

theorem stripList_intDigs (n : Int) : stripList (intDigs n) = intDigs n := by
  refine stripList_solid _ ?_ ?_
  · intro c hc
    exact intDigs_not_space n c (List.mem_of_mem_head? hc)
  · intro c hc
    exact intDigs_not_space n c (List.mem_of_mem_getLast? hc)

theorem pyFloat?_fmt2_newline (v : Rat) :
    pyFloat? (String.mk (fmt2 v ++ ['\n'])) = some ((rnd2 v : Rat) / 100) := by
  unfold pyFloat?
  have hdata : (String.mk (fmt2 v ++ ['\n'])).data = fmt2 v ++ ['\n'] := rfl
  rw [hdata]
  simp only [fmt2]
  rw [stripList_append_newline _ (fixed2_ne_nil _)
    (fun c hc => fixed2_not_space _ c (List.mem_of_mem_head? hc))
    (fun c hc => fixed2_not_space _ c (List.mem_of_mem_getLast? hc))]
  exact pyFloatCore_fixed2 _

/-! ## Filesystem lemmas -/

theorem find?_eq_none_of_any_false (fs : FS) (name : String)
    (h : fs.any (fun p => p.1 = name) = false) :
    fs.find? (fun p => p.1 = name) = none := by
  rw [List.find?_eq_none]
  intro p hp
  have := List.any_eq_false.mp h p hp
  simpa using this

theorem readFile_writeFile_self (fs : FS) (name content : String) :
    readFile (writeFile fs name content) name = some content := by
  unfold writeFile
  by_cases hany : fs.any (fun p => p.1 = name) = true
  · rw [if_pos hany]
    induction fs with
    | nil => simp at hany
    | cons p ps ih =>
      by_cases hp : p.1 = name
      · simp [readFile, List.find?, hp]
      · simp only [List.any_cons, Bool.or_eq_true, decide_eq_true_eq] at hany
        rcases hany with h1 | h1
        · exact absurd h1 hp
        · simp only [List.map_cons, if_neg hp]
          simp only [readFile, List.find?]
          rw [show (decide (p.1 = name)) = false by simp [hp]]
          exact ih h1
  · rw [if_neg hany]
    unfold readFile
    rw [List.find?_append,
      find?_eq_none_of_any_false fs name (Bool.eq_false_iff.mpr hany)]
    simp [List.find?]

theorem map_replace_id (ps : FS) (name content : String)
    (h : ps.any (fun p => p.1 = name) = false) :
    ps.map (fun p => if p.1 = name then (name, content) else p) = ps := by
  induction ps with
  | nil => rfl
  | cons q qs ih =>
    simp only [List.any_cons, Bool.or_eq_false_iff, decide_eq_false_iff_not] at h
    simp only [List.map_cons, if_neg h.1]
    rw [ih h.2]

theorem readFile_writeFile_other (fs : FS) (name content other : String)
    (h : other ≠ name) :
    readFile (writeFile fs name content) other = readFile fs other := by
  have hon : ¬ (name = other) := fun e => h e.symm
  unfold writeFile
  by_cases hany : fs.any (fun p => p.1 = name) = true
  · rw [if_pos hany]
    induction fs with
    | nil => rfl
    | cons p ps ih =>
      by_cases hp : p.1 = name
      · have hpo : ¬ (p.1 = other) := by rw [hp]; exact hon
        simp only [List.map_cons, if_pos hp]
        simp only [readFile, List.find?]
        rw [show (decide ((name, content).1 = other)) = false by simp [hon]]
        rw [show (decide (p.1 = other)) = false by simp [hpo]]
        by_cases hps : ps.any (fun q => q.1 = name) = true
        · exact ih hps
        · rw [map_replace_id ps name content (Bool.eq_false_iff.mpr hps)]
      · simp only [List.map_cons, if_neg hp]
        simp only [readFile, List.find?]
        by_cases hpo : p.1 = other
        · rw [show (decide (p.1 = other)) = true by simp [hpo]]
        · rw [show (decide (p.1 = other)) = false by simp [hpo]]
          by_cases hps : ps.any (fun q => q.1 = name) = true
          · exact ih hps
          · simp only [List.any_cons, Bool.or_eq_true, decide_eq_true_eq] at hany
            rcases hany with h1 | h1
            · exact absurd h1 hp
            · exact absurd h1 (by simpa using hps)
  · rw [if_neg hany]
    unfold readFile
    rw [List.find?_append]
    have hlast : List.find? (fun p => p.1 = other) [(name, content)] = none := by
      simp [List.find?, hon]
    rw [hlast]
    simp

theorem readFile_appendFile_self (fs : FS) (name content : String) :
    readFile (appendFile fs name content) name
      = some (((readFile fs name).getD "") ++ content) := by
  unfold appendFile
  exact readFile_writeFile_self fs name _

theorem readFile_appendFile_other (fs : FS) (name content other : String)
    (h : other ≠ name) :
    readFile (appendFile fs name content) other = readFile fs other := by
  unfold appendFile
  exact readFile_writeFile_other fs name _ other h

theorem string_mk_data (s : String) : String.mk s.data = s := rfl

theorem dayFileName_ne_balance (d : String) : dayFileName d ≠ BALANCE_FILE := by
  intro h
  have h2 : (dayFileName d).data.head? = (BALANCE_FILE : String).data.head? := by
    rw [h]
  have hl : (dayFileName d).data.head? = some 'e' := by
    show ((EXPENSE_PREFIX ++ d ++ ".txt") : String).data.head? = some 'e'
    rw [String.data_append, String.data_append]
    rfl
  have hr : (BALANCE_FILE : String).data.head? = some 'b' := rfl
  rw [hl, hr] at h2
  simp at h2

theorem read_balance_eq_absent (fs : FS) (h : readFile fs BALANCE_FILE = none) :
    read_balance fs
      = { val := 0, fs := writeFile fs BALANCE_FILE "0.0\n", diag := false } := by
  unfold read_balance
  rw [h]

theorem read_balance_eq_parse (fs : FS) (c : String) (v : Rat)
    (h1 : readFile fs BALANCE_FILE = some c) (h2 : pyFloat? c = some v) :
    read_balance fs = { val := v, fs := fs, diag := false } := by
  unfold read_balance
  rw [h1]
  simp only [h2]

theorem read_balance_eq_bad (fs : FS) (c : String)
    (h1 : readFile fs BALANCE_FILE = some c) (h2 : pyFloat? c = none) :
    read_balance fs
      = { val := 0, fs := writeFile fs BALANCE_FILE "0.0\n", diag := true } := by
  unfold read_balance
  rw [h1]
  simp only [h2]

theorem read_balance_other (fs : FS) (name : String) (h : name ≠ BALANCE_FILE) :
    readFile (read_balance fs).fs name = readFile fs name := by
  cases hrf : readFile fs BALANCE_FILE with
  | none =>
    rw [read_balance_eq_absent fs hrf]
    exact readFile_writeFile_other fs BALANCE_FILE _ name h
  | some c =>
    cases hp : pyFloat? c with
    | none =>
      rw [read_balance_eq_bad fs c hrf hp]
      exact readFile_writeFile_other fs BALANCE_FILE _ name h
    | some v => rw [read_balance_eq_parse fs c v hrf hp]

/-! ## Round trip of the appended expense line -/

theorem fixed2_getLast_digit (n : Int) :
    ∀ c ∈ (fixed2 n).getLast?, c.isDigit = true := by
  intro c hc
  have h : (fixed2 n).getLast? = some (digitChar (n.natAbs % 100 % 10)) := by
    simp only [fixed2, twoDig]
    rw [List.getLast?_append]
    rfl
  rw [h] at hc
  simp only [Option.mem_def, Option.some.injEq] at hc
  subst hc
  exact digitChar_isDigit _ (by omega)

theorem expenseLine_strip (nid : Int) (ts item : String) (amt : Rat) :
    stripList (expenseLine nid ts item amt).data
      = intDigs nid ++ '|' :: ts.data ++ '|' :: item.data ++ '|' :: fmt2 amt := by
  have hdata : (expenseLine nid ts item amt).data
      = (intDigs nid ++ '|' :: ts.data ++ '|' :: item.data ++ '|' :: fmt2 amt)
        ++ ['\n'] := by
    simp [expenseLine, List.append_assoc]
  rw [hdata]
  refine stripList_append_newline _ ?_ ?_ ?_
  · simp [intDigs_ne_nil nid]
  · intro c hc
    have hh : (intDigs nid ++ '|' :: ts.data ++ '|' :: item.data
        ++ '|' :: fmt2 amt).head? = (intDigs nid).head? := by
      cases hd : intDigs nid with
      | nil => exact absurd hd (intDigs_ne_nil nid)
      | cons d ds => simp [hd]
    rw [hh] at hc
    exact intDigs_not_space nid c (List.mem_of_mem_head? hc)
  · intro c hc
    have hh : (intDigs nid ++ '|' :: ts.data ++ '|' :: item.data
        ++ '|' :: fmt2 amt).getLast? = (fmt2 amt).getLast? := by
      rw [List.getLast?_append, List.getLast?_append, List.getLast?_append]
      cases hf : (fmt2 amt).getLast? with
      | none =>
        exact absurd (List.getLast?_eq_none_iff.mp hf) (fixed2_ne_nil (rnd2 amt))
      | some x => simp [List.getLast?_cons, hf]
    rw [hh] at hc
    have := fixed2_getLast_digit (rnd2 amt) c hc
    exact isDigit_not_space c this

theorem expenseLine_split (nid : Int) (ts item : String) (amt : Rat)
    (hts : '|' ∉ ts.data) (hit : '|' ∉ item.data) :
    splitCh '|' (intDigs nid ++ '|' :: ts.data ++ '|' :: item.data ++ '|' :: fmt2 amt)
      = [intDigs nid, ts.data, item.data, fmt2 amt] := by
  rw [show intDigs nid ++ '|' :: ts.data ++ '|' :: item.data ++ '|' :: fmt2 amt
      = intDigs nid ++ '|' :: (ts.data ++ '|' :: (item.data ++ '|' :: fmt2 amt)) by
    simp [List.append_assoc]]
  rw [splitCh_append '|' _ _ (pipe_not_mem_intDigs nid)]
  rw [splitCh_append '|' _ _ hts]
  rw [splitCh_append '|' _ _ hit]
  simp only [fmt2]
  rw [splitCh_of_not_mem '|' _ (pipe_not_mem_fixed2 (rnd2 amt))]

theorem parse_expenseLine_roundtrip (nid : Int) (ts item : String) (amt : Rat)
    (hts : '|' ∉ ts.data) (hit : '|' ∉ item.data) :
    parse_expense_line (expenseLine nid ts item amt)
      = some { id := nid, timestamp := ts, item := item,
               amount := (rnd2 amt : Rat) / 100 } := by
  unfold parse_expense_line
  rw [expenseLine_strip, expenseLine_split nid ts item amt hts hit]
  simp only [fmt2, stripList_intDigs, pyIntCore_intDigs, stripList_fixed2,
    pyFloatCore_fixed2]

/-! ## Claim C5 -/

/-- C5: `read_balance` is total and self-healing: when the balance storage is
absent it creates it holding `0.0` and returns `0.0` without a diagnostic;
when the storage exists but its content does not parse as a decimal it emits
the diagnostic, overwrites the storage with `0.0`, and returns `0.0`; and
when the content parses as a decimal `v` it returns `v` with no write and no
diagnostic. -/
theorem read_balance_self_healing (fs : FS) :
    (readFile fs BALANCE_FILE = none →
      read_balance fs
          = { val := 0, fs := writeFile fs BALANCE_FILE "0.0\n", diag := false }
        ∧ readFile (read_balance fs).fs BALANCE_FILE = some "0.0\n")
    ∧ (∀ c, readFile fs BALANCE_FILE = some c → pyFloat? c = none →
      read_balance fs
          = { val := 0, fs := writeFile fs BALANCE_FILE "0.0\n", diag := true }
        ∧ readFile (read_balance fs).fs BALANCE_FILE = some "0.0\n")
    ∧ (∀ c v, readFile fs BALANCE_FILE = some c → pyFloat? c = some v →
      read_balance fs = { val := v, fs := fs, diag := false }) := by
  refine ⟨?_, ?_, ?_⟩
  · intro h
    have he := read_balance_eq_absent fs h
    refine ⟨he, ?_⟩
    rw [he]
    exact readFile_writeFile_self fs BALANCE_FILE "0.0\n"
  · intro c h1 h2
    have he := read_balance_eq_bad fs c h1 h2
    refine ⟨he, ?_⟩
    rw [he]
    exact readFile_writeFile_self fs BALANCE_FILE "0.0\n"
  · intro c v h1 h2
    exact read_balance_eq_parse fs c v h1 h2

/-- Witness for C5: the three cases of `read_balance_self_healing` at the
concrete states of the spec scenarios (absent file, file holding `abc`,
file holding `12.50`). -/
theorem read_balance_self_healing_witness :
    (read_balance ([] : FS)
        = { val := 0, fs := writeFile ([] : FS) BALANCE_FILE "0.0\n", diag := false })
    ∧ (read_balance [("balance.txt", "abc")]
        = { val := 0,
            fs := writeFile [("balance.txt", "abc")] BALANCE_FILE "0.0\n",
            diag := true })
    ∧ (read_balance [("balance.txt", "12.50\n")]
        = { val := 25 / 2, fs := [("balance.txt", "12.50\n")], diag := false }) := by
  refine ⟨((read_balance_self_healing ([] : FS)).1 rfl).1,
    ((read_balance_self_healing [("balance.txt", "abc")]).2.1 "abc" rfl
      (by decide)).1,
    (read_balance_self_healing [("balance.txt", "12.50\n")]).2.2 "12.50\n" (25 / 2)
      rfl ?_⟩
  simp [pyFloat?, pyFloatCore, stripList, takeDigits, readSign, mantissaVal,
    digitsVal, isPySpace]
  norm_num

/-! ## Claim C7 -/

/-- C7: writing a balance with `write_balance` and reading it back with
`read_balance` returns the written value rounded to two decimal digits
(the integer `rnd2 v` of hundredths, divided by 100), with the filesystem
unchanged after the write; and when `v` already has at most two fraction
digits (`100 * v` is an integer) the value read back equals `v` itself. -/
theorem write_read_balance_roundtrip (v : Rat) (fs : FS) :
    read_balance (write_balance v fs)
      = { val := (rnd2 v : Rat) / 100, fs := write_balance v fs, diag := false }
    ∧ ((100 * v).den = 1 → (rnd2 v : Rat) / 100 = v) := by
  constructor
  · have hrf : readFile (write_balance v fs) BALANCE_FILE
        = some (String.mk (fmt2 v ++ ['\n'])) := by
      unfold write_balance
      exact readFile_writeFile_self fs BALANCE_FILE _
    exact read_balance_eq_parse _ _ _ hrf (pyFloat?_fmt2_newline v)
  · intro hden
    have hint : ((100 * v).num : Rat) = 100 * v := by
      have := Rat.num_div_den (100 * v)
      rw [hden] at this
      simpa using this
    have hr : rnd2 v = (100 * v).num := by
      unfold rnd2 roundHalfEven
      rw [← hint]
      simp [Int.floor_intCast]
    rw [hr, hint]
    field_simp

/-- Witness for C7 at `v = 12.34` on the empty directory: the read-back
value is exactly `12.34`. -/
theorem write_read_balance_roundtrip_witness :
    read_balance (write_balance (1234 / 100 : Rat) ([] : FS))
      = { val := (rnd2 (1234 / 100 : Rat) : Rat) / 100,
          fs := write_balance (1234 / 100 : Rat) ([] : FS), diag := false }
    ∧ (rnd2 (1234 / 100 : Rat) : Rat) / 100 = 1234 / 100 := by
  exact ⟨(write_read_balance_roundtrip (1234 / 100) ([] : FS)).1,
    (write_read_balance_roundtrip (1234 / 100) ([] : FS)).2 (by norm_num)⟩

/-! ## Claim C9 -/

/-- C9: `parse_expense_line` is total (a Lean function) and returns a record
exactly when the stripped line splits on the pipe into exactly four fields
whose first coerces to an integer and whose fourth coerces to a decimal; the
record carries those coerced values and the middle fields verbatim.  Any
structural or coercion failure yields `none`. -/
theorem parse_expense_line_characterization (line : String) (r : ExpRec) :
    parse_expense_line line = some r
      ↔ ∃ a b c d, splitCh '|' (stripList line.data) = [a, b, c, d]
          ∧ pyIntCore (stripList a) = some r.id
          ∧ pyFloatCore (stripList d) = some r.amount
          ∧ r.timestamp = String.mk b ∧ r.item = String.mk c := by
  unfold parse_expense_line
  constructor
  · intro h
    split at h
    next a b c d heq =>
      split at h
      next i amt hi hamt =>
        simp only [Option.some.injEq] at h
        refine ⟨a, b, c, d, heq, ?_, ?_, ?_, ?_⟩
        · rw [← h]
          exact hi
        · rw [← h]
          exact hamt
        · rw [← h]
        · rw [← h]
      next => exact absurd h (by simp)
    next => exact absurd h (by simp)
  · rintro ⟨a, b, c, d, hs, hi, hd, ht, hc⟩
    rw [hs]
    simp only [hi, hd]
    cases r with
    | mk ri rt ritem ra =>
      simp only at ht hc
      rw [ht, hc]

/-- Witness for C9: the characterization applied at the concrete line
`1|2024-01-01 10:00:00|Coffee|3.50`. -/
theorem parse_expense_line_characterization_witness :
    parse_expense_line "1|2024-01-01 10:00:00|Coffee|3.50"
      = some { id := 1, timestamp := "2024-01-01 10:00:00", item := "Coffee",
               amount := 7 / 2 } := by
  refine (parse_expense_line_characterization _ _).mpr
    ⟨"1".data, "2024-01-01 10:00:00".data, "Coffee".data, "3.50".data,
      by decide, by decide, ?_, rfl, rfl⟩
  simp [pyFloatCore, stripList, takeDigits, readSign, mantissaVal, digitsVal,
    isPySpace]
  norm_num

/-! ## Claim C10 -/

theorem mantissaVal_nonneg (ip fp : List Char) : 0 ≤ mantissaVal ip fp := by
  unfold mantissaVal
  positivity

theorem pyExpPart_nonneg (m : Rat) (cs : List Char) (hm : 0 ≤ m) :
    ∀ v ∈ pyExpPart m cs, 0 ≤ v := by
  intro v hv
  simp only [pyExpPart] at hv
  split at hv
  · simp only [Option.mem_def, Option.some.injEq] at hv
    subst hv
    split
    · positivity
    · positivity
  · simp at hv

theorem pyFloatCore_nonneg_of_no_dash (cs : List Char) (h : '-' ∉ cs) :
    ∀ v ∈ pyFloatCore cs, 0 ≤ v := by
  intro v hv
  have hsign : readSign cs = (false, cs) ∨ ∃ t, cs = '+' :: t ∧ readSign cs = (false, t) := by
    cases cs with
    | nil => exact Or.inl rfl
    | cons c t =>
      by_cases hp : c = '+'
      · subst hp
        exact Or.inr ⟨t, rfl, rfl⟩
      · have hm : c ≠ '-' := fun e => h (by simp [e])
        exact Or.inl (readSign_cons c t hm hp)
  have key : ∀ rest, readSign cs = (false, rest) → ∀ w ∈ pyFloatCore cs, 0 ≤ w := by
    intro rest hr w hw
    unfold pyFloatCore at hw
    rw [hr] at hw
    simp only at hw
    split at hw
    · split at hw
      · simp at hw
      · simp only [Option.mem_def, Option.some.injEq] at hw
        subst hw
        simp only [if_neg (Bool.false_ne_true)]
        exact mantissaVal_nonneg _ _
    · split at hw
      · simp at hw
      · split at hw
        · simp only [Option.mem_def, Option.some.injEq] at hw
          subst hw
          simp only [if_neg (Bool.false_ne_true)]
          exact mantissaVal_nonneg _ _
        · split at hw
          · simp only [Option.mem_def, Option.map_eq_some'] at hw
            obtain ⟨w0, hw0, hww⟩ := hw
            subst hww
            simp only [if_neg (Bool.false_ne_true)]
            exact pyExpPart_nonneg _ _ (mantissaVal_nonneg _ _) w0 hw0
          · simp at hw
    · split at hw
      · simp only [Option.mem_def, Option.map_eq_some'] at hw
        obtain ⟨w0, hw0, hww⟩ := hw
        subst hww
        simp only [if_neg (Bool.false_ne_true)]
        exact pyExpPart_nonneg _ _ (mantissaVal_nonneg _ _) w0 hw0
      · simp at hw
  rcases hsign with h1 | ⟨t, het, h1⟩
  · exact key cs h1 v hv
  · exact key t h1 v hv

theorem breakFirst_spec (sep : Char) (cs a b : List Char)
    (h : breakFirst sep cs = (a, some b)) : cs = a ++ sep :: b ∧ sep ∉ a := by
  induction cs generalizing a with
  | nil => simp [breakFirst] at h
  | cons c t ih =>
    by_cases hc : c = sep
    · subst hc
      simp [breakFirst] at h
      obtain ⟨h1, h2⟩ := h
      subst h1
      subst h2
      simp
    · simp only [breakFirst, if_neg hc] at h
      cases ha : breakFirst sep t with
      | mk x y =>
        rw [ha] at h
        simp only [Prod.mk.injEq] at h
        cases a with
        | nil => simp at h
        | cons a0 at' =>
          simp only [List.cons.injEq] at h
          obtain ⟨⟨hca, hx⟩, hy⟩ := h
          subst hca
          obtain ⟨ht, hna⟩ := ih at' (by rw [ha, hx, hy])
          constructor
          · rw [ht]
            simp
          · intro hm
            rcases List.mem_cons.mp hm with hm | hm
            · exact hc hm.symm
            · exact hna hm

/-! ## Claim C10 -/

/-- C10: a query whose stripped text begins with a hyphen contains a hyphen,
so it is parsed as a range split on the first hyphen; the minimum part is
empty, fails float coercion, and the attempt ends as an invalid range
(re-prompting the caller).  Moreover in the exact-match branch (stripped
query without a hyphen) any successfully parsed target is non-negative, so
an exact-match search for a negative amount can never be expressed. -/
theorem search_neg_amount_inexpressible (q : String) (fs : FS) :
    (∀ rest, stripList q.data = '-' :: rest →
      search_expenses_by_amount q fs = SearchOutcome.invalidRange)
    ∧ (∀ target, '-' ∉ stripList q.data →
      pyFloatCore (stripList q.data) = some target → 0 ≤ target) := by
  constructor
  · intro rest h
    unfold search_expenses_by_amount
    rw [h]
    rw [if_neg (by simp : ¬('-' :: rest : List Char) = [])]
    rw [if_pos (by simp : ('-' :: rest : List Char).contains '-' = true)]
    have hb : breakFirst '-' ('-' :: rest) = ([], some rest) := by
      simp [breakFirst]
    rw [hb]
    have hempty : pyFloatCore (stripList []) = none := rfl
    simp only [hempty]
  · intro target hnd hp
    exact pyFloatCore_nonneg_of_no_dash _ hnd target (by simp [hp])

/-- Witness for C10: the query `-5` is rejected as an invalid range on the
empty directory, and the query `5` parses to the non-negative target `5`. -/
theorem search_neg_amount_inexpressible_witness :
    search_expenses_by_amount "-5" ([] : FS) = SearchOutcome.invalidRange
    ∧ (0 : Rat) ≤ 5 := by
  constructor
  · exact (search_neg_amount_inexpressible "-5" ([] : FS)).1 ['5'] (by decide)
  · refine (search_neg_amount_inexpressible "5" ([] : FS)).2 5 (by decide) ?_
    simp [pyFloatCore, stripList, takeDigits, readSign, mantissaVal, digitsVal,
      isPySpace]

/-! ## Claim C8 -/

theorem perFile_range (lines : List String) (fname : String) (lo hi : Rat) :
    lines.filterMap (fun l => (parse_expense_line l).bind (fun r =>
        if lo ≤ r.amount ∧ r.amount ≤ hi then some (fname, r) else none))
      = (((lines.filterMap parse_expense_line).map (fun r => (fname, r))).filter
          (fun pr => decide (lo ≤ pr.2.amount ∧ pr.2.amount ≤ hi))) := by
  induction lines with
  | nil => rfl
  | cons l ls ih =>
    rw [List.filterMap_cons, List.filterMap_cons]
    cases hp : parse_expense_line l with
    | none => simpa using ih
    | some r =>
      by_cases hr : lo ≤ r.amount ∧ r.amount ≤ hi
      · simp only [Option.bind_eq_bind, Option.some_bind, if_pos hr, List.map_cons,
          List.filter_cons]
        rw [if_pos (by simpa using hr)]
        rw [ih]
      · simp only [Option.bind_eq_bind, Option.some_bind, if_neg hr, List.map_cons,
          List.filter_cons]
        rw [if_neg (by simpa using hr)]
        exact ih

theorem filter_flatMap_files (l : List String) (g : String → List (String × ExpRec))
    (p : String × ExpRec → Bool) :
    (l.flatMap g).filter p = l.flatMap (fun a => (g a).filter p) := by
  induction l with
  | nil => rfl
  | cons a as ih => simp [List.flatMap_cons, List.filter_append, ih]

/-- C8: a query containing a hyphen is split on its first hyphen; when both
parts coerce to decimals `lo` and `hi`, `search_expenses_by_amount` returns
exactly the parseable records across all day files whose amount satisfies
`lo ≤ amount ≤ hi`, inclusive at both bounds, in scan order and paired with
their files. -/
theorem search_range_inclusive (q : String) (fs : FS) (p0 p1 : List Char)
    (lo hi : Rat)
    (hb : breakFirst '-' (stripList q.data) = (p0, some p1))
    (hlo : pyFloatCore (stripList p0) = some lo)
    (hhi : pyFloatCore (stripList p1) = some hi) :
    search_expenses_by_amount q fs
      = SearchOutcome.results ((allRecords fs).filter
          (fun pr => decide (lo ≤ pr.2.amount ∧ pr.2.amount ≤ hi))) := by
  obtain ⟨hcs, hna⟩ := breakFirst_spec '-' _ p0 p1 hb
  have h1 : ¬ (stripList q.data = []) := by
    rw [hcs]
    simp
  have h2 : (stripList q.data).contains '-' = true := by
    have hm : '-' ∈ stripList q.data := by
      rw [hcs]
      simp
    simp [hm]
  unfold search_expenses_by_amount
  rw [if_neg h1, if_pos h2, hb]
  simp only [hlo, hhi]
  rw [show allRecords fs
      = (list_expense_files fs).flatMap (fun fname => recordsOf fs fname) from rfl]
  rw [filter_flatMap_files]
  refine congrArg SearchOutcome.results
    (congrArg (List.flatMap (list_expense_files fs)) (funext fun fname => ?_))
  simp only [recordsOf]
  exact perFile_range _ _ _ _

/-- Witness for C8: the query `5-20` over a directory holding one day file
with amounts 3.50, 5.00, 20.00 and 20.01 returns exactly the inclusive
range matches (amounts 5.00 and 20.00). -/
theorem search_range_inclusive_witness :
    search_expenses_by_amount "5-20"
        [("expenses_2024-01-01.txt",
          "1|t|a|3.50\n2|t|b|5.00\n3|t|c|20.00\n4|t|d|20.01\n")]
      = SearchOutcome.results
          ((allRecords
            [("expenses_2024-01-01.txt",
              "1|t|a|3.50\n2|t|b|5.00\n3|t|c|20.00\n4|t|d|20.01\n")]).filter
            (fun pr => decide ((5 : Rat) ≤ pr.2.amount ∧ pr.2.amount ≤ 20))) := by
  refine search_range_inclusive _ _ ['5'] ['2', '0'] 5 20 (by decide) ?_ ?_
  · simp [pyFloatCore, stripList, takeDigits, readSign, mantissaVal, digitsVal,
      isPySpace]
  · simp [pyFloatCore, stripList, takeDigits, readSign, mantissaVal, digitsVal,
      isPySpace]

/-! ## Claim C4 -/

theorem mem_insertSorted (x s : String) (l : List String) :
    x ∈ insertSorted s l ↔ x = s ∨ x ∈ l := by
  induction l with
  | nil => simp [insertSorted]
  | cons t ts ih =>
    unfold insertSorted
    split
    · simp
    · simp only [List.mem_cons, ih]
      tauto

theorem mem_sortStrings (x : String) (l : List String) :
    x ∈ sortStrings l ↔ x ∈ l := by
  induction l with
  | nil => simp [sortStrings]
  | cons t ts ih =>
    simp only [sortStrings, List.foldr_cons]
    rw [show List.foldr insertSorted [] ts = sortStrings ts from rfl]
    rw [mem_insertSorted, ih]
    simp

theorem readFile_isSome_of_mem (fs : FS) (name : String)
    (h : name ∈ fs.map (fun p => p.1)) : (readFile fs name).isSome = true := by
  induction fs with
  | nil => simp at h
  | cons p ps ih =>
    by_cases hp : p.1 = name
    · simp [readFile, List.find?, hp]
    · simp only [List.map_cons, List.mem_cons] at h
      rcases h with h | h
      · exact absurd h.symm hp
      · simp only [readFile, List.find?]
        rw [show (decide (p.1 = name)) = false by simp [hp]]
        exact ih h

theorem list_expense_files_exist (fs : FS) :
    ∀ n ∈ list_expense_files fs, (readFile fs n).isSome = true := by
  intro n hn
  unfold list_expense_files at hn
  rw [mem_sortStrings] at hn
  exact readFile_isSome_of_mem fs n (List.mem_of_mem_filter hn)

theorem total_expenses_onList_all_exist (names : List String) (fs : FS)
    (h : ∀ n ∈ names, (readFile fs n).isSome = true) :
    total_expenses_onList names fs
      = Except.ok ((names.map (fun n => fileTotal ((readFile fs n).getD ""))).sum) := by
  induction names with
  | nil => rfl
  | cons n ns ih =>
    have hn := h n (by simp)
    obtain ⟨c, hc⟩ := Option.isSome_iff_exists.mp hn
    unfold total_expenses_onList
    rw [hc, ih (fun m hm => h m (by simp [hm]))]
    simp [hc]

/-- C4 amended: the `total_expenses` scan never fails in the program's
sequential execution because the listing is taken from the current directory
immediately before the scan, so every listed file exists when opened and the
loop returns exactly the sum; the loop body itself has no skip (per the
counterexample, a listed-but-absent file is an uncaught error, not a zero
contribution). -/
theorem total_expenses_fresh_listing_never_fails (fs : FS) :
    total_expenses_onList (list_expense_files fs) fs
      = Except.ok (total_expenses fs) := by
  rw [total_expenses_onList_all_exist _ _ (list_expense_files_exist fs)]
  rfl

/-- C4 counterexample: running the `total_expenses` loop body over a listing
that names an absent day file does not skip the file and sum the rest as the
claim states: opening the missing file is an uncaught error. -/
theorem total_expenses_missing_file_raises :
    total_expenses_onList ["expenses_2024-01-01.txt"] ([] : FS)
      = Except.error "expenses_2024-01-01.txt"
    ∧ total_expenses_onList ["expenses_2024-01-01.txt"] ([] : FS)
      ≠ Except.ok 0 := by
  constructor
  · rfl
  · intro h
    simp [total_expenses_onList, readFile] at h

/-! ## Claim C2 -/

/-- C2 amended: a confirmed expense whose amount exceeds the available
balance (`read_balance` value minus total expenses) by more than `1e-9` ends
as `insufficient`: no day file is created, mutated, or appended to (every
file other than the Balance Record reads the same), and when the balance
storage is present and parseable the filesystem is entirely unchanged.  (The
only possible write is `read_balance`'s self-healing of the Balance Record,
performed before the check and independent of the rejection.) -/
theorem add_new_expense_insufficient_no_write (fs : FS) (d item : String)
    (amt : Rat) (ts : String)
    (hre : amt > (read_balance fs).val - total_expenses (read_balance fs).fs
      + 1 / 1000000000) :
    (add_new_expense fs d item amt true ts).1 = AddResult.insufficient
    ∧ (∀ name, name ≠ BALANCE_FILE →
        readFile (add_new_expense fs d item amt true ts).2 name
          = readFile fs name)
    ∧ (∀ c v, readFile fs BALANCE_FILE = some c → pyFloat? c = some v →
        (add_new_expense fs d item amt true ts).2 = fs) := by
  have hstate : add_new_expense fs d item amt true ts
      = (AddResult.insufficient, (read_balance fs).fs) := by
    unfold add_new_expense
    rw [if_neg (show ¬ ¬ (true = true) by simp), if_pos hre]
  refine ⟨by rw [hstate], ?_, ?_⟩
  · intro name hname
    rw [hstate]
    exact read_balance_other fs name hname
  · intro c v h1 h2
    rw [hstate]
    rw [read_balance_eq_parse fs c v h1 h2]

/-- Witness for C2: balance storage holds `10.00`, no expenses recorded, and
a confirmed expense of `100` is rejected with the filesystem unchanged. -/
theorem add_new_expense_insufficient_no_write_witness :
    (add_new_expense [("balance.txt", "10.00\n")] "2024-01-01" "Tea" 100 true
        "2024-01-01 11:00:00").1 = AddResult.insufficient
    ∧ (add_new_expense [("balance.txt", "10.00\n")] "2024-01-01" "Tea" 100 true
        "2024-01-01 11:00:00").2 = [("balance.txt", "10.00\n")] := by
  have hv : pyFloat? "10.00\n" = some 10 := by
    simp [pyFloat?, pyFloatCore, stripList, takeDigits, readSign, mantissaVal,
      digitsVal, isPySpace]
  have hrb := read_balance_eq_parse [("balance.txt", "10.00\n")] "10.00\n" 10 rfl hv
  have hre : (100 : Rat) > (read_balance [("balance.txt", "10.00\n")]).val
      - total_expenses (read_balance [("balance.txt", "10.00\n")]).fs
      + 1 / 1000000000 := by
    rw [hrb]
    have ht : total_expenses [("balance.txt", "10.00\n")] = 0 := rfl
    simp only [ht]
    norm_num
  have h := add_new_expense_insufficient_no_write [("balance.txt", "10.00\n")]
    "2024-01-01" "Tea" 100 "2024-01-01 11:00:00" hre
  exact ⟨h.1, h.2.2 "10.00\n" 10 rfl hv⟩

/-- C2 counterexample: with the balance storage absent, a confirmed
over-budget expense is rejected, yet the run still creates the Balance
Record (`read_balance`'s self-healing) — so the claim that no write at all
is performed and the balance storage is unchanged is false as stated. -/
theorem insufficient_reject_creates_balance :
    (add_new_expense ([] : FS) "2024-01-01" "Tea" 5 true "ts").1
        = AddResult.insufficient
    ∧ readFile (add_new_expense ([] : FS) "2024-01-01" "Tea" 5 true "ts").2
        BALANCE_FILE = some "0.0\n"
    ∧ readFile ([] : FS) BALANCE_FILE = none := by
  have hsplit : add_new_expense ([] : FS) "2024-01-01" "Tea" 5 true "ts"
      = (AddResult.insufficient, [("balance.txt", "0.0\n")]) := by
    unfold add_new_expense
    rw [read_balance_eq_absent ([] : FS) rfl]
    have hw : writeFile ([] : FS) BALANCE_FILE "0.0\n"
        = [("balance.txt", "0.0\n")] := rfl
    simp only [hw]
    have ht : total_expenses [("balance.txt", "0.0\n")] = 0 := rfl
    simp only [ht]
    norm_num
  rw [hsplit]
  exact ⟨rfl, rfl, rfl⟩

/-! ## Claim C3 -/

/-- C3 amended: `add_new_expense` never writes the Balance Record itself —
whenever the balance storage is present and parseable its content is
identical before and after every execution, committed or not (the appended
day file has a different name); when the storage is absent or unparseable
the only balance write is `read_balance`'s self-healing to `0.0`,
which happens in every execution regardless of the outcome. -/
theorem add_new_expense_balance_frame (fs : FS) (d item : String) (amt : Rat)
    (confirm : Bool) (ts : String) (c : String) (v : Rat)
    (h1 : readFile fs BALANCE_FILE = some c) (h2 : pyFloat? c = some v) :
    readFile (add_new_expense fs d item amt confirm ts).2 BALANCE_FILE
      = readFile fs BALANCE_FILE := by
  unfold add_new_expense
  rw [read_balance_eq_parse fs c v h1 h2]
  simp only
  split
  · rfl
  · split
    · rfl
    · exact readFile_appendFile_other _ _ _ _ (Ne.symm (dayFileName_ne_balance d))

/-- Witness for C3: a committed expense with parseable balance `100.0`
leaves the Balance Record content untouched. -/
theorem add_new_expense_balance_frame_witness :
    readFile (add_new_expense [("balance.txt", "100.0\n")] "2024-01-01" "Tea" 2
        true "2024-01-01 11:00:00").2 BALANCE_FILE
      = readFile [("balance.txt", "100.0\n")] BALANCE_FILE := by
  refine add_new_expense_balance_frame [("balance.txt", "100.0\n")] "2024-01-01"
    "Tea" 2 true "2024-01-01 11:00:00" "100.0\n" 100 rfl ?_
  simp [pyFloat?, pyFloatCore, stripList, takeDigits, readSign, mantissaVal,
    digitsVal, isPySpace]

/-- C3 counterexample: with corrupt balance storage `abc`, running
`add_new_expense` (here: rejected for insufficient balance after
confirmation) rewrites the Balance Record to `0.0`: the claim that the
balance storage content is the same after every execution is false, and the
write is performed by `read_balance`, not by the add-money operation. -/
theorem add_new_expense_balance_corrupt :
    readFile (add_new_expense [("balance.txt", "abc")] "2024-01-01" "Tea" 2 true
        "t").2 BALANCE_FILE = some "0.0\n"
    ∧ readFile [("balance.txt", "abc")] BALANCE_FILE = some "abc" := by
  constructor
  · unfold add_new_expense
    rw [read_balance_eq_bad [("balance.txt", "abc")] "abc" rfl (by decide)]
    have hw : writeFile [("balance.txt", "abc")] BALANCE_FILE "0.0\n"
        = [("balance.txt", "0.0\n")] := rfl
    simp only [hw]
    have ht : total_expenses [("balance.txt", "0.0\n")] = 0 := rfl
    simp only [ht]
    norm_num
    rfl
  · rfl

/-! ## Claim C6 -/

/-- C6 counterexample: `0|t|x|-1.5` parses into a record with id 0 and a
negative amount — `parse_expense_line` checks only structure and coercion,
never positivity — so the claim that every parsed record has a positive id
and a positive amount is false. -/
theorem parsed_record_not_positive :
    parse_expense_line "0|t|x|-1.5"
      = some { id := 0, timestamp := "t", item := "x", amount := -(3 / 2) }
    ∧ ¬ (∀ line r, parse_expense_line line = some r → 0 < r.id ∧ 0 < r.amount) := by
  have hp : parse_expense_line "0|t|x|-1.5"
      = some { id := 0, timestamp := "t", item := "x", amount := -(3 / 2) } := by
    simp [parse_expense_line, stripList, splitCh, pyIntCore, pyFloatCore,
      takeDigits, readSign, digitsVal, mantissaVal, isPySpace]
    norm_num
  refine ⟨hp, fun h => ?_⟩
  have := h _ _ hp
  simp at this

/-- C6 amended: the parser guarantees only structural and coercion success
(ids and amounts of any sign parse, per the counterexample); positivity is
an invariant of the lines `add_new_expense` itself writes: a confirmed
affordable expense appends a line that parses back to a record whose id is
the generated `nextId` (positive whenever that id is at least 1, as on a
fresh file) and whose amount is the entered amount rounded to two decimals
(positive whenever that rounding is nonzero). -/
theorem appended_record_positive (fs : FS) (d item : String) (amt : Rat)
    (ts : String)
    (hts : '|' ∉ ts.data) (hit : '|' ∉ item.data)
    (haff : ¬ amt > (read_balance fs).val - total_expenses (read_balance fs).fs
      + 1 / 1000000000)
    (hid : 1 ≤ nextId (read_balance fs).fs (dayFileName d))
    (hrnd : 1 ≤ rnd2 amt) :
    (add_new_expense fs d item amt true ts).1
        = AddResult.saved (dayFileName d)
            (expenseLine (nextId (read_balance fs).fs (dayFileName d)) ts item amt)
    ∧ ∃ r, parse_expense_line
          (expenseLine (nextId (read_balance fs).fs (dayFileName d)) ts item amt)
        = some r ∧ 0 < r.id ∧ 0 < r.amount := by
  constructor
  · unfold add_new_expense
    rw [if_neg (show ¬ ¬ (true = true) by simp), if_neg haff]
  · have hp := parse_expenseLine_roundtrip
      (nextId (read_balance fs).fs (dayFileName d)) ts item amt hts hit
    refine ⟨_, hp, ?_, ?_⟩
    · exact lt_of_lt_of_le Int.zero_lt_one hid
    · have h1 : (1 : Rat) ≤ (rnd2 amt : Rat) := by exact_mod_cast hrnd
      exact div_pos (lt_of_lt_of_le one_pos h1) (by norm_num)

/-- Witness for C6: with balance `100.0`, an absent day file, and a confirmed
affordable expense of 2, the appended line parses to a record with positive
id and positive amount. -/
theorem appended_record_positive_witness :
    (add_new_expense [("balance.txt", "100.0\n")] "2024-01-01" "Tea" 2 true
        "2024-01-01 11:00:00").1
      = AddResult.saved (dayFileName "2024-01-01")
          (expenseLine
            (nextId (read_balance [("balance.txt", "100.0\n")]).fs
              (dayFileName "2024-01-01"))
            "2024-01-01 11:00:00" "Tea" 2)
    ∧ ∃ r, parse_expense_line
          (expenseLine
            (nextId (read_balance [("balance.txt", "100.0\n")]).fs
              (dayFileName "2024-01-01"))
            "2024-01-01 11:00:00" "Tea" 2)
        = some r ∧ 0 < r.id ∧ 0 < r.amount := by
  have hv : pyFloat? "100.0\n" = some 100 := by
    simp [pyFloat?, pyFloatCore, stripList, takeDigits, readSign, mantissaVal,
      digitsVal, isPySpace]
  have hrb := read_balance_eq_parse [("balance.txt", "100.0\n")] "100.0\n" 100
    rfl hv
  refine appended_record_positive [("balance.txt", "100.0\n")] "2024-01-01" "Tea"
    2 "2024-01-01 11:00:00" (by decide) (by decide) ?_ ?_ ?_
  · rw [hrb]
    have ht : total_expenses [("balance.txt", "100.0\n")] = 0 := rfl
    simp only [ht]
    norm_num
  · rw [hrb]
    simp only
    decide
  · have h : (100 : Rat) * 2 = ((200 : Int) : Rat) := by norm_num
    simp [rnd2, roundHalfEven, h, Int.floor_intCast]

/-! ## Claim C1 -/

theorem splitCh_append_sep (sep : Char) (xs ys : List Char) :
    splitCh sep (xs ++ sep :: ys) = splitCh sep xs ++ splitCh sep ys := by
  induction xs with
  | nil =>
    simp only [List.nil_append]
    rw [splitCh_cons_sep]
    rfl
  | cons c cs ih =>
    by_cases hc : c = sep
    · subst hc
      rw [List.cons_append, splitCh_cons_sep, splitCh_cons_sep, ih]
      rfl
    · rw [List.cons_append]
      cases hs : splitCh sep (cs ++ sep :: ys) with
      | nil => exact absurd hs (splitCh_ne_nil sep _)
      | cons g gs =>
        rw [splitCh_cons_ne sep c _ hc g gs hs]
        cases hcs : splitCh sep cs with
        | nil => exact absurd hcs (splitCh_ne_nil sep cs)
        | cons g2 gs2 =>
          rw [splitCh_cons_ne sep c cs hc g2 gs2 hcs]
          rw [hcs] at ih
          rw [hs] at ih
          simp only [List.cons_append] at ih ⊢
          rw [List.cons.injEq] at ih
          rw [ih.1, ih.2]

theorem fsExists_eq_isSome (fs : FS) (name : String) :
    fsExists fs name = (readFile fs name).isSome := by
  induction fs with
  | nil => rfl
  | cons p ps ih =>
    by_cases hp : p.1 = name
    · simp [fsExists, readFile, List.find?, hp]
    · simp only [fsExists, List.any_cons, readFile, List.find?]
      rw [show (decide (p.1 = name)) = false by simp [hp]]
      simpa [fsExists, readFile] using ih

/-- The characters of an appended expense line before its final newline. -/
def expenseBody (nid : Int) (ts item : String) (amt : Rat) : List Char :=
  intDigs nid ++ '|' :: ts.data ++ '|' :: item.data ++ '|' :: fmt2 amt

theorem expenseLine_eq_body (nid : Int) (ts item : String) (amt : Rat) :
    expenseLine nid ts item amt
      = String.mk (expenseBody nid ts item amt ++ ['\n']) := by
  unfold expenseLine expenseBody
  simp [List.append_assoc]

theorem expenseBody_ne_nil (nid : Int) (ts item : String) (amt : Rat) :
    expenseBody nid ts item amt ≠ [] := by
  unfold expenseBody
  simp

theorem expenseBody_head_not_space (nid : Int) (ts item : String) (amt : Rat) :
    ∀ c ∈ (expenseBody nid ts item amt).head?, isPySpace c = false := by
  intro c hc
  unfold expenseBody at hc
  have hh : (intDigs nid ++ '|' :: ts.data ++ '|' :: item.data
      ++ '|' :: fmt2 amt).head? = (intDigs nid).head? := by
    cases hd : intDigs nid with
    | nil => exact absurd hd (intDigs_ne_nil nid)
    | cons d ds => simp [hd]
  rw [hh] at hc
  exact intDigs_not_space nid c (List.mem_of_mem_head? hc)

theorem expenseBody_last_not_space (nid : Int) (ts item : String) (amt : Rat) :
    ∀ c ∈ (expenseBody nid ts item amt).getLast?, isPySpace c = false := by
  intro c hc
  unfold expenseBody at hc
  have hh : (intDigs nid ++ '|' :: ts.data ++ '|' :: item.data
      ++ '|' :: fmt2 amt).getLast? = (fmt2 amt).getLast? := by
    rw [List.getLast?_append, List.getLast?_append, List.getLast?_append]
    cases hf : (fmt2 amt).getLast? with
    | none =>
      exact absurd (List.getLast?_eq_none_iff.mp hf) (fixed2_ne_nil (rnd2 amt))
    | some x => simp [List.getLast?_cons, hf]
  rw [hh] at hc
  exact isDigit_not_space c (fixed2_getLast_digit (rnd2 amt) c hc)

theorem stripList_expenseBody (nid : Int) (ts item : String) (amt : Rat) :
    stripList (expenseBody nid ts item amt) = expenseBody nid ts item amt :=
  stripList_solid _ (expenseBody_head_not_space nid ts item amt)
    (expenseBody_last_not_space nid ts item amt)

theorem newline_not_mem_expenseBody (nid : Int) (ts item : String) (amt : Rat)
    (htsn : '\n' ∉ ts.data) (hitn : '\n' ∉ item.data) :
    '\n' ∉ expenseBody nid ts item amt := by
  unfold expenseBody
  intro h
  simp only [List.mem_append, List.mem_cons] at h
  have hint := newline_not_mem_intDigs nid
  have hpipe : ('\n' : Char) = '|' → False := by decide
  have hf : '\n' ∉ fmt2 amt := by
    simpa [fmt2] using newline_not_mem_fixed2 (rnd2 amt)
  tauto

theorem parse_expenseBody_roundtrip (nid : Int) (ts item : String) (amt : Rat)
    (hts : '|' ∉ ts.data) (hit : '|' ∉ item.data) :
    parse_expense_line (String.mk (expenseBody nid ts item amt))
      = some { id := nid, timestamp := ts, item := item,
               amount := (rnd2 amt : Rat) / 100 } := by
  unfold parse_expense_line
  have hdata : (String.mk (expenseBody nid ts item amt)).data
      = expenseBody nid ts item amt := rfl
  rw [hdata, stripList_expenseBody]
  unfold expenseBody
  rw [expenseLine_split nid ts item amt hts hit]
  simp only [fmt2, stripList_intDigs, pyIntCore_intDigs, stripList_fixed2,
    pyFloatCore_fixed2]

theorem nonBlankLines_append_body (old : String) (body : List Char)
    (hnb : stripList body = body) (hne : body ≠ []) (hnn : '\n' ∉ body)
    (hold : old.data = [] ∨ ∃ a, old.data = a ++ ['\n']) :
    (nonBlankLines (old ++ String.mk (body ++ ['\n']))).getLast?
      = some (String.mk body) := by
  have hdata : (old ++ String.mk (body ++ ['\n'])).data
      = old.data ++ (body ++ ['\n']) := by
    rw [String.data_append]
  have hsplit_tail : splitCh '\n' (body ++ ['\n']) = [body, []] := by
    rw [show body ++ ['\n'] = body ++ '\n' :: [] from rfl]
    rw [splitCh_append_sep '\n' body []]
    rw [splitCh_of_not_mem '\n' body hnn]
    rfl
  have hkeep : stripList (String.mk body).data ≠ [] := by
    show stripList body ≠ []
    rw [hnb]
    exact hne
  have hdrop : ¬ stripList (String.mk ([] : List Char)).data ≠ [] := by
    simp
    rfl
  unfold nonBlankLines fileLines
  rw [hdata]
  rcases hold with h0 | ⟨a, ha⟩
  · rw [h0, List.nil_append, hsplit_tail]
    simp only [List.map_cons, List.map_nil, List.filter_cons]
    rw [if_pos (by simpa using hkeep), if_neg (by simpa using hdrop)]
    rfl
  · rw [ha, show (a ++ ['\n']) ++ (body ++ ['\n']) = a ++ '\n' :: (body ++ ['\n'])
      by simp]
    rw [splitCh_append_sep '\n' a _, hsplit_tail]
    rw [List.map_append, List.filter_append, List.getLast?_append]
    simp only [List.map_cons, List.map_nil, List.filter_cons]
    rw [if_pos (by simpa using hkeep), if_neg (by simpa using hdrop)]
    rfl

theorem nextId_after_append (fs : FS) (fname : String) (nid : Int)
    (ts item : String) (amt : Rat)
    (hts : '|' ∉ ts.data) (hit : '|' ∉ item.data)
    (htsn : '\n' ∉ ts.data) (hitn : '\n' ∉ item.data)
    (hold : ((readFile fs fname).getD "").data = []
        ∨ ∃ a, ((readFile fs fname).getD "").data = a ++ ['\n']) :
    nextId (appendFile fs fname (expenseLine nid ts item amt)) fname
      = nid + 1 := by
  have hrd := readFile_appendFile_self fs fname (expenseLine nid ts item amt)
  unfold nextId
  rw [if_pos (by rw [fsExists_eq_isSome, hrd]; rfl)]
  rw [hrd]
  simp only [Option.getD_some]
  rw [expenseLine_eq_body]
  rw [nonBlankLines_append_body _ _ (stripList_expenseBody nid ts item amt)
    (expenseBody_ne_nil nid ts item amt)
    (newline_not_mem_expenseBody nid ts item amt htsn hitn) hold]
  simp only
  rw [parse_expenseBody_roundtrip nid ts item amt hts hit]

/-- C1 amended: the id `add_new_expense` generates comes from the last
non-blank line of the day file (1 when the file is absent, has no non-blank
line, or that last line does not parse — even if earlier lines are
well-formed, per the counterexample).  Consequently, for committed runs the
appended line carries id `nextId`, a second committed run on the same day
file would generate exactly `nextId + 1` (the appended well-formed line is
now the last non-blank line), and a fresh file starts at id 1. -/
theorem append_id_increment (fs : FS) (d item : String) (amt : Rat)
    (ts : String) (c : String) (v : Rat)
    (hbal : readFile fs BALANCE_FILE = some c) (hbv : pyFloat? c = some v)
    (haff : ¬ amt > v - total_expenses fs + 1 / 1000000000)
    (hts : '|' ∉ ts.data) (hit : '|' ∉ item.data)
    (htsn : '\n' ∉ ts.data) (hitn : '\n' ∉ item.data)
    (hold : ((readFile fs (dayFileName d)).getD "").data = []
        ∨ ∃ a, ((readFile fs (dayFileName d)).getD "").data = a ++ ['\n']) :
    (add_new_expense fs d item amt true ts).1
        = AddResult.saved (dayFileName d)
            (expenseLine (nextId fs (dayFileName d)) ts item amt)
    ∧ nextId (add_new_expense fs d item amt true ts).2 (dayFileName d)
        = nextId fs (dayFileName d) + 1
    ∧ (readFile fs (dayFileName d) = none → nextId fs (dayFileName d) = 1) := by
  have hrb := read_balance_eq_parse fs c v hbal hbv
  have hstate : add_new_expense fs d item amt true ts
      = (AddResult.saved (dayFileName d)
          (expenseLine (nextId fs (dayFileName d)) ts item amt),
        appendFile fs (dayFileName d)
          (expenseLine (nextId fs (dayFileName d)) ts item amt)) := by
    unfold add_new_expense
    rw [hrb]
    simp only
    simp
    simpa using not_lt.mp haff
  refine ⟨by rw [hstate], ?_, ?_⟩
  · rw [hstate]
    exact nextId_after_append fs (dayFileName d) _ ts item amt hts hit htsn hitn
      hold
  · intro habs
    unfold nextId
    rw [if_neg (by rw [fsExists_eq_isSome, habs]; simp)]

/-- Witness for C1: balance `100.0`, absent day file, committed expense of 2;
the run appends the line with id `nextId` (here 1), a follow-up would use
id 2, and the fresh-file id is 1. -/
theorem append_id_increment_witness :
    (add_new_expense [("balance.txt", "100.0\n")] "2024-01-01" "Tea" 2 true
        "2024-01-01 11:00:00").1
        = AddResult.saved (dayFileName "2024-01-01")
            (expenseLine
              (nextId [("balance.txt", "100.0\n")] (dayFileName "2024-01-01"))
              "2024-01-01 11:00:00" "Tea" 2)
    ∧ nextId (add_new_expense [("balance.txt", "100.0\n")] "2024-01-01" "Tea" 2
          true "2024-01-01 11:00:00").2 (dayFileName "2024-01-01")
        = nextId [("balance.txt", "100.0\n")] (dayFileName "2024-01-01") + 1
    ∧ (readFile [("balance.txt", "100.0\n")] (dayFileName "2024-01-01") = none →
        nextId [("balance.txt", "100.0\n")] (dayFileName "2024-01-01") = 1) := by
  have hv : pyFloat? "100.0\n" = some 100 := by
    simp [pyFloat?, pyFloatCore, stripList, takeDigits, readSign, mantissaVal,
      digitsVal, isPySpace]
  refine append_id_increment [("balance.txt", "100.0\n")] "2024-01-01" "Tea" 2
    "2024-01-01 11:00:00" "100.0\n" 100 rfl hv ?_ (by decide) (by decide)
    (by decide) (by decide) (Or.inl (by decide))
  have ht : total_expenses [("balance.txt", "100.0\n")] = 0 := rfl
  simp only [ht]
  norm_num

/-- C1 counterexample: the day file ends with the unparseable line `garbage`
after a well-formed record with id 1.  The claim says the next id is 1 plus
the id of the last well-formed record (so 2); the code instead inspects only
the last non-blank line (`garbage`), fails to parse it, and appends id 1. -/
theorem append_id_ignores_last_wellformed :
    parse_expense_line "1|2024-01-01 10:00:00|Coffee|3.50"
        = some { id := 1, timestamp := "2024-01-01 10:00:00", item := "Coffee",
                 amount := 7 / 2 }
    ∧ (nonBlankLines "1|2024-01-01 10:00:00|Coffee|3.50\ngarbage\n").getLast?
        = some "garbage"
    ∧ (add_new_expense
          [("balance.txt", "100.0\n"),
           ("expenses_2024-01-01.txt",
            "1|2024-01-01 10:00:00|Coffee|3.50\ngarbage\n")]
          "2024-01-01" "Tea" 2 true "2024-01-01 11:00:00").1
        = AddResult.saved "expenses_2024-01-01.txt"
            "1|2024-01-01 11:00:00|Tea|2.00\n"
    ∧ (parse_expense_line "1|2024-01-01 11:00:00|Tea|2.00\n").map ExpRec.id
        ≠ some 2 := by
  have hv : pyFloat? "100.0\n" = some 100 := by
    simp [pyFloat?, pyFloatCore, stripList, takeDigits, readSign, mantissaVal,
      digitsVal, isPySpace]
  have hrb := read_balance_eq_parse
    [("balance.txt", "100.0\n"),
     ("expenses_2024-01-01.txt", "1|2024-01-01 10:00:00|Coffee|3.50\ngarbage\n")]
    "100.0\n" 100 rfl hv
  have hfiles : list_expense_files
      [("balance.txt", "100.0\n"),
       ("expenses_2024-01-01.txt",
        "1|2024-01-01 10:00:00|Coffee|3.50\ngarbage\n")]
      = ["expenses_2024-01-01.txt"] := by decide
  have hft : fileTotal "1|2024-01-01 10:00:00|Coffee|3.50\ngarbage\n"
      = 7 / 2 := by
    simp [fileTotal, fileLines, splitCh, parse_expense_line, stripList,
      pyIntCore, pyFloatCore, takeDigits, readSign, digitsVal, mantissaVal,
      isPySpace]
    norm_num
  have htot : total_expenses
      [("balance.txt", "100.0\n"),
       ("expenses_2024-01-01.txt",
        "1|2024-01-01 10:00:00|Coffee|3.50\ngarbage\n")]
      = 7 / 2 := by
    unfold total_expenses
    rw [hfiles]
    simp only [List.map_cons, List.map_nil]
    rw [show readFile
        [("balance.txt", "100.0\n"),
         ("expenses_2024-01-01.txt",
          "1|2024-01-01 10:00:00|Coffee|3.50\ngarbage\n")]
        "expenses_2024-01-01.txt"
        = some "1|2024-01-01 10:00:00|Coffee|3.50\ngarbage\n" from by decide]
    simp only [Option.getD_some]
    rw [hft]
    simp
  have hrnd : rnd2 (2 : Rat) = 200 := by
    have h : (100 : Rat) * 2 = ((200 : Int) : Rat) := by norm_num
    simp [rnd2, roundHalfEven, h, Int.floor_intCast]
  have hline : expenseLine 1 "2024-01-01 11:00:00" "Tea" 2
      = "1|2024-01-01 11:00:00|Tea|2.00\n" := by
    simp [expenseLine, intDigs, natDigs, natDigsRev, digitChar, fmt2, hrnd,
      fixed2, twoDig]
  have hnext : nextId
      [("balance.txt", "100.0\n"),
       ("expenses_2024-01-01.txt",
        "1|2024-01-01 10:00:00|Coffee|3.50\ngarbage\n")]
      (dayFileName "2024-01-01") = 1 := by decide
  have hstate : (add_new_expense
      [("balance.txt", "100.0\n"),
       ("expenses_2024-01-01.txt",
        "1|2024-01-01 10:00:00|Coffee|3.50\ngarbage\n")]
      "2024-01-01" "Tea" 2 true "2024-01-01 11:00:00").1
      = AddResult.saved (dayFileName "2024-01-01")
          (expenseLine
            (nextId
              [("balance.txt", "100.0\n"),
               ("expenses_2024-01-01.txt",
                "1|2024-01-01 10:00:00|Coffee|3.50\ngarbage\n")]
              (dayFileName "2024-01-01"))
            "2024-01-01 11:00:00" "Tea" 2) := by
    unfold add_new_expense
    rw [hrb]
    simp only
    simp
    rw [htot]
    norm_num
  refine ⟨?_, by decide, ?_, ?_⟩
  · simp [parse_expense_line, stripList, splitCh, pyIntCore, pyFloatCore,
      takeDigits, readSign, digitsVal, mantissaVal, isPySpace]
    norm_num
  · rw [hstate, hnext, hline, show dayFileName "2024-01-01"
      = "expenses_2024-01-01.txt" from by decide]
  · rw [show parse_expense_line "1|2024-01-01 11:00:00|Tea|2.00\n"
        = some { id := 1, timestamp := "2024-01-01 11:00:00", item := "Tea",
                 amount := 2 } from by
      simp [parse_expense_line, stripList, splitCh, pyIntCore, pyFloatCore,
        takeDigits, readSign, digitsVal, mantissaVal, isPySpace]]
    simp
